import Mathlib

/-!
Verification of the core text-processing functions of GPTtrace
(src/GPTtrace.py): the command normalizer `make_executable_command`,
the response streamer `generate_result`, the Markdown code-block
extractor `extract_code_blocks`, the prompt builders, and the train
loop of `main`.  Strings are modelled as `List Char`; Python's ASCII
whitespace set is used for `str.strip`.
-/

namespace GPTtrace

/-- The newline character. -/
def nl : Char := Char.ofNat 10

/-- The backtick character. -/
def btick : Char := Char.ofNat 96

/-- The apostrophe character. -/
def sq : Char := Char.ofNat 39

/-- Whitespace characters stripped by Python's `str.strip()` (ASCII range). -/
def isPySpace (c : Char) : Bool :=
  c == ' ' || c == Char.ofNat 9 || c == nl || c == Char.ofNat 13 ||
    c == Char.ofNat 11 || c == Char.ofNat 12

/-- Python's `s.startswith(c)` for a single character `c`. -/
def startsWith1 (c : Char) : List Char → Bool
  | [] => false
  | x :: _ => x == c

/-- Python's `s.endswith(c)` for a single character `c`. -/
def endsWith1 (c : Char) (s : List Char) : Bool :=
  startsWith1 c s.reverse

/-- Python's `s.strip()`: remove leading and trailing whitespace. -/
def pyStrip (s : List Char) : List Char :=
  ((s.dropWhile isPySpace).reverse.dropWhile isPySpace).reverse

/-- Boolean test that `sep` occurs at the very start of `s`. -/
def startsWithSeq : List Char → List Char → Bool
  | [], _ => true
  | _ :: _, [] => false
  | a :: as, b :: bs => a == b && startsWithSeq as bs

/-- Python's `s.split(sep)[0]`: the portion of `s` before the first
occurrence of `sep` (the whole string if `sep` does not occur; `sep`
is assumed non-empty, as in the source where it is `"User: "`). -/
def takeBefore (sep : List Char) : List Char → List Char
  | [] => []
  | c :: rest =>
    if startsWithSeq sep (c :: rest) then [] else c :: takeBefore sep rest

/-- Boolean test that `sep` occurs somewhere in `s` (as a contiguous run). -/
def containsSeq (sep : List Char) : List Char → Bool
  | [] => startsWithSeq sep []
  | c :: rest => startsWithSeq sep (c :: rest) || containsSeq sep rest

/-- The sentinel literal of `make_executable_command` in src/GPTtrace.py. -/
def sentinel : List Char := String.toList "User: "

/-- Embedding of `make_executable_command` (src/GPTtrace.py lines 139-150):
conditionally drop one leading newline, one trailing newline, one leading
backtick, one trailing backtick, then strip whitespace, then keep the part
before the first `"User: "`. -/
def make_executable_command (command : List Char) : List Char :=
  let c1 := if startsWith1 nl command then command.drop 1 else command
  let c2 := if endsWith1 nl c1 then c1.dropLast else c1
  let c3 := if startsWith1 btick c2 then c2.drop 1 else c2
  let c4 := if endsWith1 btick c3 then c3.dropLast else c3
  let c5 := pyStrip c4
  takeBefore sentinel c5

/-- Spec step: drop exactly one leading occurrence of `c`, if present. -/
def dropOneLeading (c : Char) (s : List Char) : List Char :=
  if startsWith1 c s then s.drop 1 else s

/-- Spec step: drop exactly one trailing occurrence of `c`, if present. -/
def dropOneTrailing (c : Char) (s : List Char) : List Char :=
  if endsWith1 c s then s.dropLast else s

/-- Modelled from the spec's words (section 4.3): the six-step pipeline
that `normalizeCommand` is claimed to be — one leading newline, one
trailing newline, one leading backtick, one trailing backtick, trim
whitespace, truncate at the sentinel.  Compared against
`make_executable_command`, which is embedded from the source. -/
def normalizeCommand_spec (s : List Char) : List Char :=
  takeBefore sentinel
    (pyStrip
      (dropOneTrailing btick
        (dropOneLeading btick
          (dropOneTrailing nl
            (dropOneLeading nl s)))))

/-- Boolean test that `s` neither starts nor ends with a newline,
backtick, or whitespace character. -/
def isNoiseChar (c : Char) : Bool :=
  c == nl || c == btick || isPySpace c

/-- Boolean test for a string free of surrounding newline, backtick or
whitespace noise. -/
def cleanEnds (s : List Char) : Bool :=
  (match s.head? with
   | none => true
   | some c => !(isNoiseChar c)) &&
  (match s.getLast? with
   | none => true
   | some c => !(isNoiseChar c))

/-- One event of the streamed backend response: `data["message"]` is the
cumulative message so far, `data["conversation_id"]` the session id. -/
structure StreamEvent where
  message : List Char
  conversation_id : List Char
deriving DecidableEq

/-- Embedding of the loop body of `generate_result` (src/GPTtrace.py lines
156-167): `prev` is `prev_text`, `buf` the accumulated buffer, `sess` the
last `received_session`; each event appends `message[len(prev):]` to the
buffer. -/
def generate_result_loop (prev buf sess : List Char) :
    List StreamEvent → List Char × List Char
  | [] => (buf, sess)
  | e :: rest =>
    generate_result_loop e.message (buf ++ e.message.drop prev.length)
      e.conversation_id rest

/-- Embedding of `generate_result` (src/GPTtrace.py lines 153-170), with
the external `bot.ask` stream abstracted as the list of events it yields:
returns the accumulated text and the final session id, starting from
`prev_text = ""`, empty buffer and `received_session = ""`. -/
def generate_result (events : List StreamEvent) : List Char × List Char :=
  generate_result_loop [] [] [] events

/-- The per-event fragments computed by `generate_result`: for each event,
`message[len(prev_text):]` (these are exactly the strings it writes to the
buffer, and echoes when `print_out` is set). -/
def stream_fragments (prev : List Char) : List StreamEvent → List (List Char)
  | [] => []
  | e :: rest => e.message.drop prev.length :: stream_fragments e.message rest

/-- The fragment sequence of a whole stream, starting from `prev_text = ""`. -/
def generate_fragments (events : List StreamEvent) : List (List Char) :=
  stream_fragments [] events

/-- Boolean test that consecutive events' cumulative messages form an
extension chain: each message has the previous one as an initial run. -/
def messageChainB : List StreamEvent → Bool
  | [] => true
  | [_] => true
  | a :: b :: rest =>
    startsWithSeq a.message b.message && messageChainB (b :: rest)

/-- An inline raw-text node of marko's AST; its `children` field holds the
literal text content (as in marko's `RawText`). -/
structure RawText where
  children : List Char
deriving DecidableEq

/-- A top-level Markdown block as produced by marko's parser, carrying its
inline children; only the constructor distinguishing fenced code from the
rest matters to `extract_code_blocks`. -/
inductive Block where
  | FencedCode (children : List RawText)
  | Paragraph (children : List RawText)
  | Heading (children : List RawText)
  | ListBlock (children : List RawText)
deriving DecidableEq

/-- Embedding of `extract_code_blocks` (src/GPTtrace.py lines 173-181),
with the external marko parse abstracted as the list of top-level blocks:
for each `FencedCode` block it appends `block.children[0].children`; the
out-of-bounds access `children[0]` on a childless fenced block is the
`none` outcome (Python raises `IndexError`, discarding all results). -/
def extract_code_blocks : List Block → Option (List (List Char))
  | [] => some []
  | Block.FencedCode [] :: _ => none
  | Block.FencedCode (blk :: _) :: rest =>
    (extract_code_blocks rest).map (fun r => blk.children :: r)
  | Block.Paragraph _ :: rest => extract_code_blocks rest
  | Block.Heading _ :: rest => extract_code_blocks rest
  | Block.ListBlock _ :: rest => extract_code_blocks rest

/-- The text `extract_code_blocks` selects from one block: the first
inline child's raw text for a non-empty fenced block, nothing otherwise. -/
def fencedFirstText : Block → Option (List Char)
  | Block.FencedCode (blk :: _) => some blk.children
  | _ => none

/-- Boolean test that no fenced block in the list is childless. -/
def noEmptyFenced : List Block → Bool
  | [] => true
  | Block.FencedCode [] :: _ => false
  | _ :: rest => noEmptyFenced rest

/-- Embedding of `construct_generate_prompt` (src/GPTtrace.py lines
122-126), with `os.uname()[0]` abstracted as the `osName` argument; the
f-string interpolates `osName` and `text` verbatim into the template. -/
def construct_generate_prompt (osName text : List Char) : List Char :=
  String.toList "You are now a translater from human language to " ++
    osName ++
    String.toList " eBPF programs.\nPlease write eBPF programs for me.\nNo explanation required, no instruction required, don" ++
    [sq] ++
    String.toList "t tell me how to compile and run.\nWhat I want is a eBPF program for: " ++
    text ++ String.toList "."

/-- Embedding of `construct_running_prompt` (src/GPTtrace.py lines
129-136), with `os.uname()[0]` abstracted as the `osName` argument. -/
def construct_running_prompt (osName text : List Char) : List Char :=
  String.toList "You are now a translater from human language to " ++
    osName ++
    String.toList " shell bpftrace command.\nNo explanation required.\nrespond with only the raw shell bpftrace command.\nIt should be start with `bpftrace`.\nYour response should be able to put into a shell and run directly.\nJust output in one line, without any description, or any other text that cannot be run in shell.\nWhat should I type to shell to trace using bpftrace for: " ++
    text ++ String.toList ", in one line."

/-- One iteration of the train loop of `main` (src/GPTtrace.py lines
105-116), with the backend exchange abstracted as `exchange : input,
session argument ↦ (response, returned session)`.  The state is the
`session` variable plus a log of the session argument passed to each
`generate_result` call; the source passes `conv_uuid`, not `session`. -/
def train_step (exchange : List Char → Option (List Char) → List Char × List Char)
    (conv_uuid : Option (List Char))
    (st : Option (List Char) × List (Option (List Char)))
    (input_data : List Char) :
    Option (List Char) × List (Option (List Char)) :=
  (some (exchange input_data conv_uuid).2, st.2 ++ [conv_uuid])

/-- The whole train loop: `session` starts as `conv_uuid` (line 104) and
the files are processed in order; returns the final `session` (printed as
"Trained session") and the log of session arguments passed. -/
def train_run (exchange : List Char → Option (List Char) → List Char × List Char)
    (conv_uuid : Option (List Char)) (files : List (List Char)) :
    Option (List Char) × List (Option (List Char)) :=
  files.foldl (train_step exchange conv_uuid) (conv_uuid, [])

/-- A concrete backend exchange used to instantiate universally quantified
theorems: it echoes the input and returns it as the new session id. -/
def exchange0 : List Char → Option (List Char) → List Char × List Char :=
  fun input _ => (input, String.toList "S-" ++ input)

/-! Helper lemmas. -/

lemma startsWith1_false (c : Char) (s : List Char)
    (h : ∀ d, s.head? = some d → (d == c) = false) : startsWith1 c s = false := by
  cases s with
  | nil => rfl
  | cons a as => exact h a rfl

lemma endsWith1_false (c : Char) (s : List Char)
    (h : ∀ d, s.getLast? = some d → (d == c) = false) : endsWith1 c s = false := by
  apply startsWith1_false
  intro d hd
  apply h
  rwa [List.head?_reverse] at hd

lemma cleanEnds_head {s : List Char} {d : Char} (h : cleanEnds s = true)
    (hd : s.head? = some d) : isNoiseChar d = false := by
  unfold cleanEnds at h
  obtain ⟨h1, _⟩ := Bool.and_eq_true_iff.mp h
  rw [hd] at h1
  simpa using h1

lemma cleanEnds_last {s : List Char} {d : Char} (h : cleanEnds s = true)
    (hd : s.getLast? = some d) : isNoiseChar d = false := by
  unfold cleanEnds at h
  obtain ⟨_, h2⟩ := Bool.and_eq_true_iff.mp h
  rw [hd] at h2
  simpa using h2

lemma isNoiseChar_false {d : Char} (h : isNoiseChar d = false) :
    (d == nl) = false ∧ (d == btick) = false ∧ isPySpace d = false := by
  unfold isNoiseChar at h
  obtain ⟨h1, h2⟩ := Bool.or_eq_false_iff.mp h
  obtain ⟨h3, h4⟩ := Bool.or_eq_false_iff.mp h1
  exact ⟨h3, h4, h2⟩

lemma dropWhile_id {p : Char → Bool} {s : List Char}
    (h : ∀ d, s.head? = some d → p d = false) : s.dropWhile p = s := by
  cases s with
  | nil => rfl
  | cons a as => simp [List.dropWhile_cons, h a rfl]

lemma pyStrip_eq_self {s : List Char}
    (hh : ∀ d, s.head? = some d → isPySpace d = false)
    (hl : ∀ d, s.getLast? = some d → isPySpace d = false) :
    pyStrip s = s := by
  unfold pyStrip
  rw [dropWhile_id hh]
  rw [dropWhile_id (fun d hd => hl d (by rwa [List.head?_reverse] at hd))]
  exact List.reverse_reverse s

lemma takeBefore_eq_self {sep s : List Char} (h : containsSeq sep s = false) :
    takeBefore sep s = s := by
  induction s with
  | nil => rfl
  | cons c rest ih =>
    unfold containsSeq at h
    obtain ⟨h1, h2⟩ := Bool.or_eq_false_iff.mp h
    unfold takeBefore
    rw [h1]
    simp [ih h2]

lemma mec_eq_self {s : List Char} (hclean : cleanEnds s = true)
    (hsent : containsSeq sentinel s = false) :
    make_executable_command s = s := by
  have hhead : ∀ d, s.head? = some d → isNoiseChar d = false :=
    fun d hd => cleanEnds_head hclean hd
  have hlast : ∀ d, s.getLast? = some d → isNoiseChar d = false :=
    fun d hd => cleanEnds_last hclean hd
  have h1 : startsWith1 nl s = false :=
    startsWith1_false _ _ (fun d hd => (isNoiseChar_false (hhead d hd)).1)
  have h2 : endsWith1 nl s = false :=
    endsWith1_false _ _ (fun d hd => (isNoiseChar_false (hlast d hd)).1)
  have h3 : startsWith1 btick s = false :=
    startsWith1_false _ _ (fun d hd => (isNoiseChar_false (hhead d hd)).2.1)
  have h4 : endsWith1 btick s = false :=
    endsWith1_false _ _ (fun d hd => (isNoiseChar_false (hlast d hd)).2.1)
  have h5 : pyStrip s = s :=
    pyStrip_eq_self (fun d hd => (isNoiseChar_false (hhead d hd)).2.2)
      (fun d hd => (isNoiseChar_false (hlast d hd)).2.2)
  have h6 : takeBefore sentinel s = s := takeBefore_eq_self hsent
  simp [make_executable_command, h1, h2, h3, h4, h5, h6]

/-- The second example input of claim C1:
`"bpftrace -e '...'\nUser: explain more"`. -/
def c1_input : List Char :=
  String.toList "bpftrace -e " ++ [sq] ++ String.toList "..." ++ [sq] ++
    String.toList "\nUser: explain more"

/-- The output claim C1 expects on `c1_input`: `"bpftrace -e '...'"`. -/
def c1_claimed : List Char :=
  String.toList "bpftrace -e " ++ [sq] ++ String.toList "..." ++ [sq]

/-- C1 (counterexample): on `"bpftrace -e '...'\nUser: explain more"` the
normalizer does not return `"bpftrace -e '...'"` — whitespace stripping
happens before the sentinel split, so the newline preceding `"User: "`
survives into the output. -/
theorem c1_counterexample :
    make_executable_command c1_input ≠ c1_claimed := by decide

/-- C1 (amended): `make_executable_command` is exactly the six-step
pipeline of the spec — drop one leading newline, one trailing newline,
one leading backtick, one trailing backtick, strip whitespace, truncate
before the first `"User: "` — and `"\n`ls -la`\n"` normalizes to
`"ls -la"`; but `"bpftrace -e '...'\nUser: explain more"` normalizes to
`"bpftrace -e '...'\n"` (with a trailing newline), not `"bpftrace -e '...'"`. -/
theorem c1_normalize_pipeline :
    (∀ s, make_executable_command s = normalizeCommand_spec s) ∧
    make_executable_command (String.toList "\n`ls -la`\n") = String.toList "ls -la" ∧
    make_executable_command c1_input = c1_claimed ++ [nl] :=
  ⟨fun _ => rfl, by decide, by decide⟩

/-- C3 (counterexample): `"aUser: b"` has no surrounding newline,
backtick or whitespace noise, yet `make_executable_command` does not
return it unchanged — the sentinel `"User: "` occurs inside it, so the
output is truncated to `"a"`. -/
theorem c3_counterexample :
    cleanEnds (String.toList "aUser: b") = true ∧
    make_executable_command (String.toList "aUser: b") ≠ String.toList "aUser: b" := by
  exact ⟨by decide, by decide⟩

/-- C3 (amended): for every string with no surrounding newline, backtick
or whitespace noise and with no occurrence of the sentinel `"User: "`,
`make_executable_command` returns it unchanged (and hence equals its
`strip()`). -/
theorem c3_noise_free_identity (s : List Char) (hclean : cleanEnds s = true)
    (hsent : containsSeq sentinel s = false) :
    make_executable_command s = s :=
  mec_eq_self hclean hsent

/-- Witness for `c3_noise_free_identity` at the input `"ls -la"`. -/
theorem c3_noise_free_identity_witness :
    cleanEnds (String.toList "ls -la") = true ∧
    containsSeq sentinel (String.toList "ls -la") = false ∧
    make_executable_command (String.toList "ls -la") = String.toList "ls -la" :=
  ⟨by decide, by decide,
    c3_noise_free_identity (String.toList "ls -la") (by decide) (by decide)⟩

/-- C7: stripping is single-pass, so the normalizer is not idempotent —
on `"``ls``"` (two backticks per side) a second application strips
further — while any string with no strippable leading/trailing character
and no sentinel occurrence is a fixed point. -/
theorem c7_single_pass_not_idempotent :
    make_executable_command (make_executable_command (String.toList "``ls``")) ≠
      make_executable_command (String.toList "``ls``") ∧
    (∀ s, cleanEnds s = true → containsSeq sentinel s = false →
      make_executable_command s = s) :=
  ⟨by decide, fun _ h1 h2 => mec_eq_self h1 h2⟩

/-- Witness for `c7_single_pass_not_idempotent` at `"bpftrace -l"`. -/
theorem c7_single_pass_not_idempotent_witness :
    cleanEnds (String.toList "bpftrace -l") = true ∧
    containsSeq sentinel (String.toList "bpftrace -l") = false ∧
    make_executable_command (String.toList "bpftrace -l") = String.toList "bpftrace -l" :=
  ⟨by decide, by decide,
    c7_single_pass_not_idempotent.2 (String.toList "bpftrace -l") (by decide) (by decide)⟩

lemma startsWithSeq_exists (a : List Char) :
    ∀ b, startsWithSeq a b = true → ∃ t, b = a ++ t := by
  induction a with
  | nil => exact fun b _ => ⟨b, rfl⟩
  | cons x xs ih =>
    intro b hb
    cases b with
    | nil => simp [startsWithSeq] at hb
    | cons y ys =>
      unfold startsWithSeq at hb
      obtain ⟨h1, h2⟩ := Bool.and_eq_true_iff.mp hb
      obtain ⟨t, ht⟩ := ih ys h2
      have hxy : x = y := beq_iff_eq.mp h1
      subst hxy
      exact ⟨t, by simp [ht]⟩

lemma generate_result_loop_fst (evs : List StreamEvent) :
    ∀ prev buf sess, (generate_result_loop prev buf sess evs).1 =
      buf ++ (stream_fragments prev evs).flatten := by
  induction evs with
  | nil => intro prev buf sess; simp [generate_result_loop, stream_fragments]
  | cons e rest ih =>
    intro prev buf sess
    simp [generate_result_loop, stream_fragments, ih, List.flatten_cons,
      List.append_assoc]

lemma generate_result_loop_last (evs : List StreamEvent) :
    ∀ (prev sess : List Char) (e : StreamEvent),
      evs.getLast? = some e → messageChainB evs = true →
      (∀ hd, evs.head? = some hd → startsWithSeq prev hd.message = true) →
      generate_result_loop prev prev sess evs = (e.message, e.conversation_id) := by
  induction evs with
  | nil => intro prev sess e h _ _; simp at h
  | cons a rest ih =>
    intro prev sess e hlast hch hhd
    obtain ⟨t, ht⟩ := startsWithSeq_exists _ _ (hhd a rfl)
    have hbuf : prev ++ a.message.drop prev.length = a.message := by
      rw [ht, List.drop_left]
    cases rest with
    | nil =>
      have hae : a = e := by simpa using hlast
      subst hae
      simp [generate_result_loop, hbuf]
    | cons b rest2 =>
      have hlast2 : (b :: rest2).getLast? = some e := by
        rwa [List.getLast?_cons_cons] at hlast
      have hch2 : startsWithSeq a.message b.message = true ∧
          messageChainB (b :: rest2) = true := by
        unfold messageChainB at hch
        exact Bool.and_eq_true_iff.mp hch
      have step : generate_result_loop prev prev sess (a :: b :: rest2) =
          generate_result_loop a.message a.message a.conversation_id (b :: rest2) := by
        show generate_result_loop a.message
            (prev ++ a.message.drop prev.length) a.conversation_id (b :: rest2) = _
        rw [hbuf]
      rw [step]
      exact ih a.message a.conversation_id e hlast2 hch2.2
        (fun hd hhd2 => by
          have : hd = b := by simpa using hhd2.symm
          rw [this]
          exact hch2.1)

/-- C2: for a non-empty event stream whose cumulative messages form an
extension chain, `generate_result` returns the final event's full message
(equal to the concatenation of the per-event fragments) together with the
final event's session identifier. -/
theorem c2_stream_reconstruction (evs : List StreamEvent) (e : StreamEvent)
    (hlast : evs.getLast? = some e) (hch : messageChainB evs = true) :
    (generate_result evs).1 = (generate_fragments evs).flatten ∧
    generate_result evs = (e.message, e.conversation_id) := by
  constructor
  · simpa [generate_result, generate_fragments] using
      generate_result_loop_fst evs [] [] []
  · exact generate_result_loop_last evs [] [] e hlast hch (fun _ _ => rfl)

/-- The event stream with cumulative texts `["Hel", "Hello", "Hello world"]`
used by the spec's streaming example. -/
def evs0 : List StreamEvent :=
  [⟨String.toList "Hel", String.toList "s1"⟩,
   ⟨String.toList "Hello", String.toList "s2"⟩,
   ⟨String.toList "Hello world", String.toList "s3"⟩]

/-- Witness for `c2_stream_reconstruction` on the three-event stream
`evs0`. -/
theorem c2_stream_reconstruction_witness :
    evs0.getLast? = some ⟨String.toList "Hello world", String.toList "s3"⟩ ∧
    messageChainB evs0 = true ∧
    generate_result evs0 = (String.toList "Hello world", String.toList "s3") :=
  ⟨by decide, by decide,
    (c2_stream_reconstruction evs0
      ⟨String.toList "Hello world", String.toList "s3"⟩ (by decide) (by decide)).2⟩

/-- C4 (counterexample): on cumulative texts `["Hel", "Hello", "Hello
world"]` the reconstructed fragments are not `["Hel", "lo", "  world"]` —
the third fragment carries a single leading space, not two (and the
claimed fragments would concatenate to `"Hello  world"`, not the final
text). -/
theorem c4_counterexample :
    generate_fragments evs0 ≠
      [String.toList "Hel", String.toList "lo", String.toList "  world"] := by
  decide

/-- C4 (amended): on cumulative texts `["Hel", "Hello", "Hello world"]`
the reconstructed fragments are `["Hel", "lo", " world"]`, and their
concatenation equals the final text `"Hello world"`, which is also the
first component returned by `generate_result`. -/
theorem c4_fragments_example :
    generate_fragments evs0 =
      [String.toList "Hel", String.toList "lo", String.toList " world"] ∧
    (generate_fragments evs0).flatten = String.toList "Hello world" ∧
    (generate_result evs0).1 = String.toList "Hello world" :=
  ⟨by decide, by decide, by decide⟩

/-- C8: on an empty event stream `generate_result` returns the empty
text and the empty session identifier (the initial `received_session`),
and is defined — no error. -/
theorem c8_empty_stream : generate_result [] = ([], []) := rfl

lemma extract_code_blocks_filterMap (blocks : List Block)
    (h : noEmptyFenced blocks = true) :
    extract_code_blocks blocks = some (blocks.filterMap fencedFirstText) := by
  induction blocks with
  | nil => rfl
  | cons b rest ih =>
    cases b with
    | FencedCode cs =>
      cases cs with
      | nil => simp [noEmptyFenced] at h
      | cons blk cs2 =>
        have h2 : noEmptyFenced rest = true := by
          simpa [noEmptyFenced] using h
        simp [extract_code_blocks, fencedFirstText, List.filterMap_cons, ih h2]
    | Paragraph cs =>
      have h2 : noEmptyFenced rest = true := by simpa [noEmptyFenced] using h
      simp [extract_code_blocks, fencedFirstText, List.filterMap_cons, ih h2]
    | Heading cs =>
      have h2 : noEmptyFenced rest = true := by simpa [noEmptyFenced] using h
      simp [extract_code_blocks, fencedFirstText, List.filterMap_cons, ih h2]
    | ListBlock cs =>
      have h2 : noEmptyFenced rest = true := by simpa [noEmptyFenced] using h
      simp [extract_code_blocks, fencedFirstText, List.filterMap_cons, ih h2]

/-- The body `"int main(){}"` of the fenced block in the spec's extractor
example. -/
def mainBody : List Char :=
  String.toList "int main()" ++ [Char.ofNat 123, Char.ofNat 125]

/-- C5: when every fenced block has an inline child, `extract_code_blocks`
returns exactly the first-child text of each top-level fenced block, in
document order, and nothing else (text of paragraphs, headings and lists
never appears); on one paragraph followed by one fenced block holding
`"int main(){}"` it returns exactly that one string, and on an input with
no fenced block it returns the empty sequence. -/
theorem c5_extract_code_blocks_spec :
    (∀ blocks, noEmptyFenced blocks = true →
      extract_code_blocks blocks = some (blocks.filterMap fencedFirstText)) ∧
    extract_code_blocks
      [Block.Paragraph [⟨String.toList "Some text"⟩],
       Block.FencedCode [⟨mainBody⟩]] = some [mainBody] ∧
    extract_code_blocks
      [Block.Paragraph [⟨String.toList "No code here"⟩],
       Block.Heading [⟨String.toList "A title"⟩]] = some [] :=
  ⟨fun blocks h => extract_code_blocks_filterMap blocks h, by decide, by decide⟩

/-- The block list instantiating the universally quantified part of C5's
theorem in its witness. -/
def blocks0 : List Block :=
  [Block.Heading [⟨String.toList "Title"⟩],
   Block.FencedCode [⟨String.toList "x = 1"⟩],
   Block.Paragraph [⟨String.toList "prose"⟩],
   Block.FencedCode [⟨String.toList "y = 2"⟩]]

/-- Witness for `c5_extract_code_blocks_spec` on `blocks0`. -/
theorem c5_extract_code_blocks_spec_witness :
    noEmptyFenced blocks0 = true ∧
    extract_code_blocks blocks0 =
      some [String.toList "x = 1", String.toList "y = 2"] :=
  ⟨by decide,
    (c5_extract_code_blocks_spec.1 blocks0 (by decide)).trans (by decide)⟩

/-- C6: a fenced code block with no inline children makes
`extract_code_blocks` fail with the out-of-bounds access `children[0]`
(the `none` outcome of the embedding, Python's `IndexError`) rather than
contribute an empty string — even when other, well-formed fenced blocks
are present. -/
theorem c6_empty_fenced_block_errors :
    extract_code_blocks [Block.FencedCode []] = none ∧
    extract_code_blocks
      [Block.FencedCode [⟨String.toList "int x;"⟩], Block.FencedCode []] = none :=
  ⟨rfl, rfl⟩

lemma isInfix_append_left (x y z : List Char) (h : List.IsInfix x y) :
    List.IsInfix x (z ++ y) := by
  obtain ⟨s, t, rfl⟩ := h
  exact ⟨z ++ s, t, by simp only [List.append_assoc]⟩

lemma isInfix_append_right (x y z : List Char) (h : List.IsInfix x y) :
    List.IsInfix x (y ++ z) := by
  obtain ⟨s, t, rfl⟩ := h
  exact ⟨s, t ++ z, by simp only [List.append_assoc]⟩

/-- C9: the prompt builders are total functions of the description and
the OS name (hence deterministic and failure-free for every input,
including the empty string), and both inputs are embedded verbatim — each
occurs as a contiguous run of the built prompt. -/
theorem c9_prompt_builders_embed_inputs (osName text : List Char) :
    List.IsInfix osName (construct_generate_prompt osName text) ∧
    List.IsInfix text (construct_generate_prompt osName text) ∧
    List.IsInfix osName (construct_running_prompt osName text) ∧
    List.IsInfix text (construct_running_prompt osName text) := by
  have hos : List.IsInfix osName osName := ⟨[], [], by simp⟩
  have htext : List.IsInfix text text := ⟨[], [], by simp⟩
  refine ⟨?_, ?_, ?_, ?_⟩
  · unfold construct_generate_prompt
    exact isInfix_append_right _ _ _ (isInfix_append_right _ _ _
      (isInfix_append_right _ _ _ (isInfix_append_right _ _ _
        (isInfix_append_right _ _ _ (isInfix_append_left _ _ _ hos)))))
  · unfold construct_generate_prompt
    exact isInfix_append_right _ _ _ (isInfix_append_left _ _ _ htext)
  · unfold construct_running_prompt
    exact isInfix_append_right _ _ _ (isInfix_append_right _ _ _
      (isInfix_append_right _ _ _ (isInfix_append_left _ _ _ hos)))
  · unfold construct_running_prompt
    exact isInfix_append_right _ _ _ (isInfix_append_left _ _ _ htext)

lemma train_fold_snd (exchange : List Char → Option (List Char) → List Char × List Char)
    (uuid : Option (List Char)) (files : List (List Char)) :
    ∀ st, (files.foldl (train_step exchange uuid) st).2 =
      st.2 ++ files.map (fun _ => uuid) := by
  induction files with
  | nil => intro st; simp
  | cons f fs ih =>
    intro st
    rw [List.foldl_cons, ih]
    simp [train_step, List.append_assoc]

lemma train_fold_fst (exchange : List Char → Option (List Char) → List Char × List Char)
    (uuid : Option (List Char)) (files : List (List Char)) :
    ∀ (st : Option (List Char) × List (Option (List Char))) (g : List Char),
      files.getLast? = some g →
      (files.foldl (train_step exchange uuid) st).1 = some (exchange g uuid).2 := by
  induction files with
  | nil => intro st g h; simp at h
  | cons f fs ih =>
    intro st g h
    cases fs with
    | nil =>
      have hfg : f = g := by simpa using h
      subst hfg
      simp [train_step]
    | cons f2 fs2 =>
      have h2 : (f2 :: fs2).getLast? = some g := by
        rwa [List.getLast?_cons_cons] at h
      rw [List.foldl_cons]
      exact ih _ g h2

/-- C10: the train loop passes the caller-supplied `conv_uuid` — never
the session returned by an earlier exchange — as the session argument of
every `generate_result` call, and the final "Trained session" is the
session returned by the exchange on the last file (or the original
`conv_uuid` when there are no files). -/
theorem c10_train_uses_original_uuid
    (exchange : List Char → Option (List Char) → List Char × List Char)
    (conv_uuid : Option (List Char)) (files : List (List Char)) :
    (train_run exchange conv_uuid files).2 = files.map (fun _ => conv_uuid) ∧
    (∀ g, files.getLast? = some g →
      (train_run exchange conv_uuid files).1 = some (exchange g conv_uuid).2) ∧
    (files = [] → (train_run exchange conv_uuid files).1 = conv_uuid) := by
  refine ⟨?_, ?_, ?_⟩
  · simpa using train_fold_snd exchange conv_uuid files (conv_uuid, [])
  · exact fun g hg => train_fold_fst exchange conv_uuid files (conv_uuid, []) g hg
  · intro h
    subst h
    rfl

/-- Witness for `c10_train_uses_original_uuid` on two files and no
supplied session: both calls receive `none`, and the final session is the
one returned by the exchange on the second file. -/
theorem c10_train_uses_original_uuid_witness :
    (train_run exchange0 none [String.toList "f1", String.toList "f2"]).2 =
      [none, none] ∧
    (train_run exchange0 none [String.toList "f1", String.toList "f2"]).1 =
      some (exchange0 (String.toList "f2") none).2 := by
  have h := c10_train_uses_original_uuid exchange0 none
    [String.toList "f1", String.toList "f2"]
  exact ⟨h.1.trans (by decide), h.2.1 (String.toList "f2") (by decide)⟩

end GPTtrace
